import Mathlib

/-!
Verification of interactions-argtask (src/interactions/ext/argtask/task.py)
against its natural-language specification.

The python module is embedded shallowly: the mutable Task object becomes an
explicit state record, the asyncio loop becomes a fuel-indexed step function
driven by an oracle that decides, at each wait, whether the stop event wins
the race against the timer, and the error sink (logger / default error
handler) becomes a list of recorded messages inside the state.  Handles of
loops launched with asyncio.create_task are indices into a list of status
flags; a flag is true once the loop task has settled (finished or had its
cancellation processed).  Python name resolution matters for two lines of
the source that mention names bound nowhere (uuid, args); the names bound
at module scope are therefore embedded explicitly and looked up where the
source looks them up.
-/

namespace ArgTask

/-- Trigger contract consumed by task.py (interactions BaseTrigger):
next_fire returns the next absolute fire time or none when exhausted,
set_last_call_time records a firing, reschedule resets trigger bookkeeping.
The trigger is an external collaborator, so it is kept abstract as a state
type sigma with the three operations of the contract. -/
structure TriggerOps (σ : Type) where
  next_fire : σ → Option Int
  set_last_call_time : Int → σ → σ
  reschedule : σ → σ

/-- Observable outcome of one invocation of the stored callback:
it returns normally, returns a new trigger state (a BaseTrigger instance),
or raises an exception carrying a message. -/
inductive CallResult (σ : Type) where
  | ok : CallResult σ
  | ret : σ → CallResult σ
  | raise : String → CallResult σ

/-- True when the callback outcome is not a returned trigger. -/
def noRet {σ : Type} : CallResult σ → Bool
  | CallResult.ret _ => false
  | _ => true

/-- State of one Task object from task.py.  callback and trigger are the two
stored collaborators (the callback is modelled by the outcome it produces at
each fire index); _stop is whether the asyncio.Event is set; task is the
currently stored loop handle (an index into spawned) or none; iteration and
uuid are the attributes of the same names; spawned records every loop ever
launched by start, true meaning the loop task has settled; errors is the
error sink (get_logger().error and Client.default_error_handler). -/
structure Task (σ : Type) where
  callback : Nat → CallResult σ
  trigger : σ
  _stop : Bool
  task : Option Nat
  iteration : Nat
  uuid : String
  spawned : List Bool
  errors : List String

/-- Names bound at module scope of task.py: its import statements plus the
two classes the module itself defines and the dunder assignment. -/
def taskModuleGlobals : List String :=
  ["asyncio", "inspect", "_Task", "datetime", "timedelta", "Callable",
   "interactions", "get_logger", "BaseTrigger", "__all__", "Task", "TaskManager"]

/-- Python builtins that task.py touches; relevant only to show that the
unbound names below are not builtins either. -/
def pythonBuiltins : List String :=
  ["str", "isinstance", "Exception", "RuntimeError", "property",
   "classmethod", "None", "True", "False"]

/-- Python name resolution as task.py sees it: a name is bound when it is a
local of the current function, a module global, or a builtin. -/
def boundName (locals : List String) (n : String) : Bool :=
  locals.contains n || taskModuleGlobals.contains n || pythonBuiltins.contains n

/-- Message of the NameError raised by the line self.uuid = str(uuid.uuid4())
in Task.__init__, since task.py never imports uuid. -/
def nameErrorUuid : String := "NameError: name uuid is not defined"

/-- Message of the NameError raised by the line self.restart(*args, **kwargs)
in Task.reschedule, whose scope binds neither args nor kwargs. -/
def nameErrorArgs : String := "NameError: name args is not defined"

/-- Error logged by Task.start when asyncio.create_task raises RuntimeError
because no event loop is running. -/
def startErrorMsg : String :=
  "Unable to start task without a running event loop! We recommend starting tasks within an on_startup event."

/-- Task.__init__(callback, trigger): assigns callback, trigger, a cleared
stop event, task = None and iteration = 0, then evaluates uuid.uuid4().
The locals of __init__ are self, callback and trigger; uuid is looked up as
a global and is not bound, so construction raises NameError and no Task
object is obtained.  The uuid stored on the then branch stands for the
fresh random token str(uuid.uuid4()) would produce. -/
def Task.init {σ : Type} (cb : Nat → CallResult σ) (trig : σ) :
    Except String (Task σ) :=
  if boundName ["self", "callback", "trigger"] ("uuid") then
    Except.ok
      { callback := cb, trigger := trig, _stop := false, task := none,
        iteration := 0, uuid := ("uuid4-token"), spawned := [], errors := [] }
  else
    Except.error nameErrorUuid

/-- Property Task.running: self.task is not None and not self.task.done().
A handle index outside spawned counts as settled; in every state the code
reaches, task only ever holds indices of spawned handles. -/
def Task.running {σ : Type} (s : Task σ) : Bool :=
  match s.task with
  | some i => !(s.spawned.getD i true)
  | none => false

/-- Property Task.started: self.task is not None. -/
def Task.started {σ : Type} (s : Task σ) : Bool :=
  s.task.isSome

/-- Task.stop: set the stop event, and cancel the stored handle when one is
present.  Cancellation is modelled at its settled point: the cancelled loop
task counts as done. -/
def Task.stop {σ : Type} (s : Task σ) : Task σ :=
  { s with
    _stop := true,
    spawned :=
      match s.task with
      | some i => s.spawned.set i true
      | none => s.spawned }

/-- Task.start: inside one try block, reset the trigger with
trigger.reschedule(), clear the stop event, then create the loop task and
store its handle.  When no event loop is active (loopActive = false),
asyncio.create_task raises RuntimeError after the first two effects; the
except clause catches it and logs through get_logger().error, so no
exception reaches the caller and the handle is not assigned. -/
def Task.start {σ : Type} (T : TriggerOps σ) (loopActive : Bool) (s : Task σ) :
    Task σ :=
  let s1 : Task σ := { s with trigger := T.reschedule s.trigger, _stop := false }
  if loopActive then
    { s1 with task := some s1.spawned.length, spawned := s1.spawned ++ [false] }
  else
    { s1 with errors := s1.errors ++ [startErrorMsg] }

/-- Task.restart: self.stop() then self.start(args). -/
def Task.restart {σ : Type} (T : TriggerOps σ) (loopActive : Bool) (s : Task σ) :
    Task σ :=
  Task.start T loopActive (Task.stop s)

/-- Task.reschedule(trigger): assigns self.trigger = trigger, then runs
self.restart(*args, **kwargs).  The locals of reschedule are self and
trigger only, and no enclosing scope binds args or kwargs, so evaluating
the starred arguments raises NameError after the trigger assignment has
already happened; the pair returned is the mutated state together with the
exception that propagates to the caller. -/
def Task.reschedule {σ : Type} (T : TriggerOps σ) (loopActive : Bool)
    (s : Task σ) (t : σ) : Task σ × Option String :=
  let s1 : Task σ := { s with trigger := t }
  if boundName ["self", "trigger"] ("args") then
    (Task.restart T loopActive s1, none)
  else
    (s1, some nameErrorArgs)

/-- Task.__call__: invoke the callback (awaited when it is a coroutine),
inside a try block.  A returned BaseTrigger is passed to self.reschedule,
whose NameError is raised inside the same try block; any exception of the
block is caught and routed to on_error, which feeds the error sink.  r is
the outcome the callback produced. -/
def Task.call {σ : Type} (T : TriggerOps σ) (r : CallResult σ) (s : Task σ) :
    Task σ :=
  match r with
  | CallResult.ok => s
  | CallResult.ret t =>
      match Task.reschedule T true s t with
      | (s1, none) => s1
      | (s1, some e) => { s1 with errors := s1.errors ++ [e] }
  | CallResult.raise e => { s with errors := s.errors ++ [e] }

/-- Task._fire(fire_time): record the fire time into the trigger via
set_last_call_time, launch self(...) as a concurrent task, and increment
iteration.  The launched invocation is linearized here: its effect on the
sink is applied at the fire; with callbacks that do not return a trigger
this changes no observable the loop reads. -/
def Task._fire {σ : Type} (T : TriggerOps σ) (ft : Int) (s : Task σ) : Task σ :=
  let s1 : Task σ := { s with trigger := T.set_last_call_time ft s.trigger }
  let s2 : Task σ := Task.call T (s1.callback s1.iteration) s1
  { s2 with iteration := s2.iteration + 1 }

/-- Record that the loop task running as handle i has returned: its asyncio
task becomes done. -/
def finishLoop {σ : Type} (i : Nat) (s : Task σ) : Task σ :=
  { s with spawned := s.spawned.set i true }

/-- Task._task_loop running as handle i.  Each list element of env is one
pass through the wait of the loop body: true means the stop event was set
during the wait (an external stop() call, which also cancelled the handle)
and the stop future won the race, false means the timer won.  An empty env
with the loop still going means the run is cut off mid-wait (the loop has
not returned, so no final state is produced).  The body follows the source:
exit when the stop event is set, query next_fire and stop when it is none,
race the stop event against the timer (ties go to the stop event), else
fire and continue. -/
def Task._task_loop {σ : Type} (T : TriggerOps σ) (i : Nat) :
    List Bool → Task σ → Option (Task σ)
  | [], s => if s._stop then some (finishLoop i s) else none
  | e :: env, s =>
    if s._stop then some (finishLoop i s)
    else
      match T.next_fire s.trigger with
      | none => some (finishLoop i (Task.stop s))
      | some ft =>
        if e then some (finishLoop i (Task.stop s))
        else Task._task_loop T i env (Task._fire T ft s)

/-- Python dict read: self.tasks.get(task_uuid) returns the stored value or
None.  The mapping is an association list whose keys are unique in every
state the code builds. -/
def dictGet {α : Type} : List (String × α) → String → Option α
  | [], _ => none
  | (k1, v) :: rest, k => if k1 == k then some v else dictGet rest k

/-- Whether a key is present in the mapping. -/
def containsKey {α : Type} (l : List (String × α)) (k : String) : Bool :=
  l.any (fun p => p.1 == k)

/-- Python dict write: self.tasks[key] = value replaces the value at an
existing key in place, otherwise appends a new entry at the end. -/
def dictInsert {α : Type} (l : List (String × α)) (k : String) (v : α) :
    List (String × α) :=
  if containsKey l k then
    l.map (fun p => if p.1 == k then (k, v) else p)
  else
    l ++ [(k, v)]

/-- Number of entries stored under a key. -/
def countKey {α : Type} (l : List (String × α)) (k : String) : Nat :=
  (l.filter (fun p => p.1 == k)).length

/-- Keys of the mapping are pairwise distinct; every mapping the manager
itself builds satisfies this. -/
def NodupKeys {α : Type} (l : List (String × α)) : Prop :=
  (l.map Prod.fst).Nodup

/-- TaskManager: self.tasks = dict mapping uuid strings to Task objects. -/
structure TaskManager (σ : Type) where
  tasks : List (String × Task σ)

/-- TaskManager.add_task: store the task under its own uuid and return that
uuid.  The pair is the mutated manager together with the returned value. -/
def TaskManager.add_task {σ : Type} (m : TaskManager σ) (t : Task σ) :
    TaskManager σ × String :=
  ({ tasks := dictInsert m.tasks t.uuid t }, t.uuid)

/-- TaskManager.get_task: self.tasks.get(task_uuid). -/
def TaskManager.get_task {σ : Type} (m : TaskManager σ) (k : String) :
    Option (Task σ) :=
  dictGet m.tasks k

/-- TaskManager.start_task: look the task up, and when present call its
start; a Task object is always truthy, so the if task guard is exactly
presence in the mapping.  The in-place mutation of the shared Task object
is the update of the entry at that key. -/
def TaskManager.start_task {σ : Type} (T : TriggerOps σ) (loopActive : Bool)
    (m : TaskManager σ) (k : String) : TaskManager σ :=
  match TaskManager.get_task m k with
  | some t => { tasks := dictInsert m.tasks k (Task.start T loopActive t) }
  | none => m

/-- TaskManager.stop_task: look up, and when present call the stop of the
task. -/
def TaskManager.stop_task {σ : Type} (m : TaskManager σ) (k : String) :
    TaskManager σ :=
  match TaskManager.get_task m k with
  | some t => { tasks := dictInsert m.tasks k (Task.stop t) }
  | none => m

/-- TaskManager.restart_task: look up, and when present call the restart of
the task. -/
def TaskManager.restart_task {σ : Type} (T : TriggerOps σ) (loopActive : Bool)
    (m : TaskManager σ) (k : String) : TaskManager σ :=
  match TaskManager.get_task m k with
  | some t => { tasks := dictInsert m.tasks k (Task.restart T loopActive t) }
  | none => m

/-- TaskManager.reschedule_task: look up, and when present delegate to the
reschedule of the task; the NameError that reschedule raises propagates out
of the manager call, after the trigger assignment has mutated the shared
Task object. -/
def TaskManager.reschedule_task {σ : Type} (T : TriggerOps σ) (loopActive : Bool)
    (m : TaskManager σ) (k : String) (t : σ) : TaskManager σ × Option String :=
  match TaskManager.get_task m k with
  | some tk =>
      match Task.reschedule T loopActive tk t with
      | (tk1, e) => ({ tasks := dictInsert m.tasks k tk1 }, e)
  | none => (m, none)

/-- Trigger state evolution the loop produces when the callback never
replaces the trigger: one step applies set_last_call_time at the time
next_fire reports, and is the identity once the schedule is exhausted. -/
def trigStep {σ : Type} (T : TriggerOps σ) (t : σ) : σ :=
  match T.next_fire t with
  | some ft => T.set_last_call_time ft t
  | none => t

/-- Trigger state after n fires of the loop, starting from t. -/
def trigTrace {σ : Type} (T : TriggerOps σ) (t : σ) : Nat → σ
  | 0 => t
  | n + 1 => trigStep T (trigTrace T t n)

/-- Observables of a Task state that the loop body branches on or that the
claims track, excluding the callback (a collaborator) and the error sink. -/
def core {σ : Type} (s : Task σ) :
    σ × Bool × Option Nat × Nat × List Bool × String :=
  (s.trigger, s._stop, s.task, s.iteration, s.spawned, s.uuid)

/-- Number of loop tasks of this Task that are live (spawned, not settled). -/
def liveLoops {σ : Type} (s : Task σ) : Nat :=
  s.spawned.count false

/-- Concrete trigger for test scenarios, satisfying the trigger contract: the
state is the list of remaining fire times, next_fire reports the first one,
recording a firing consumes it, and reschedule keeps the schedule. -/
def listTrigger : TriggerOps (List Int) :=
  { next_fire := fun t => t.head?,
    set_last_call_time := fun _ t => t.tail,
    reschedule := fun t => t }

/-- Callback that always returns normally. -/
def cbOk : Nat → CallResult (List Int) := fun _ => CallResult.ok

/-- Callback that raises at every invocation. -/
def cbRaise : Nat → CallResult (List Int) := fun _ => CallResult.raise ("boom")

/-- A Task state as construction would have produced it with the scenario
trigger of the spec (fires at 1 and 2, then exhausted). -/
def sampleTask : Task (List Int) :=
  { callback := cbOk, trigger := [1, 2], _stop := false, task := none,
    iteration := 0, uuid := ("tok"), spawned := [], errors := [] }

/-- sampleTask after start under a running event loop: its loop runs as
handle 0. -/
def startedSample : Task (List Int) :=
  Task.start listTrigger true sampleTask

/-- startedSample with a callback that raises at every fire. -/
def raisingSample : Task (List Int) :=
  { startedSample with callback := cbRaise }

/-- The state in which the loop of startedSample ends when nothing stops it:
both scheduled fires happened, the trigger is exhausted, the loop stopped
itself and its handle settled. -/
def loopEndSample : Task (List Int) :=
  { callback := cbOk, trigger := [], _stop := true, task := some 0,
    iteration := 2, uuid := ("tok"), spawned := [true], errors := [] }

/-- Empty manager. -/
def sampleManager : TaskManager (List Int) := { tasks := [] }

/-- Manager holding sampleTask under its uuid. -/
def sampleManager1 : TaskManager (List Int) :=
  (TaskManager.add_task sampleManager sampleTask).1

/-- Setting a handle settled makes it read settled, getElem form. -/
theorem getElem_set_true : ∀ (l : List Bool) (i : Nat), ((l.set i true)[i]?).getD true = true := by
  intro l
  induction l with
  | nil => intro i; rfl
  | cons a l ih =>
      intro i
      cases i with
      | zero => simp
      | succ j => simpa using ih j

/-- Setting a handle settled makes it read settled. -/
theorem getD_set_true (l : List Bool) (i : Nat) : (l.set i true).getD i true = true := by
  rw [List.getD_eq_getElem?_getD]
  exact getElem_set_true l i

/-- The callback invocation never touches the iteration counter. -/
theorem call_iteration {σ : Type} (T : TriggerOps σ) (r : CallResult σ)
    (s : Task σ) : (Task.call T r s).iteration = s.iteration := by
  cases r with
  | ok => rfl
  | ret t => rfl
  | raise e => rfl

/-- The callback invocation never changes the stored callback. -/
theorem call_callback {σ : Type} (T : TriggerOps σ) (r : CallResult σ)
    (s : Task σ) : (Task.call T r s).callback = s.callback := by
  cases r with
  | ok => rfl
  | ret t => rfl
  | raise e => rfl

/-- When the callback does not return a trigger, its invocation only feeds
the error sink: every other field of the state is kept. -/
theorem call_noRet_proj {σ : Type} (T : TriggerOps σ) (r : CallResult σ)
    (h : noRet r = true) (s : Task σ) :
    (Task.call T r s).trigger = s.trigger ∧
    (Task.call T r s)._stop = s._stop ∧
    (Task.call T r s).task = s.task ∧
    (Task.call T r s).spawned = s.spawned := by
  cases r with
  | ok => exact ⟨rfl, rfl, rfl, rfl⟩
  | ret t => simp [noRet] at h
  | raise e => exact ⟨rfl, rfl, rfl, rfl⟩

/-- Firing increments iteration by exactly one. -/
theorem fire_iteration {σ : Type} (T : TriggerOps σ) (ft : Int) (s : Task σ) :
    (Task._fire T ft s).iteration = s.iteration + 1 := by
  unfold Task._fire
  simp [call_iteration]

/-- Firing keeps the stored callback. -/
theorem fire_callback {σ : Type} (T : TriggerOps σ) (ft : Int) (s : Task σ) :
    (Task._fire T ft s).callback = s.callback := by
  unfold Task._fire
  simp [call_callback]

/-- With a callback that does not return a trigger, firing records the fire
time into the trigger, increments iteration, and keeps handle bookkeeping
and the stop event. -/
theorem fire_noRet_proj {σ : Type} (T : TriggerOps σ) (ft : Int) (s : Task σ)
    (h : noRet (s.callback s.iteration) = true) :
    (Task._fire T ft s).trigger = T.set_last_call_time ft s.trigger ∧
    (Task._fire T ft s)._stop = s._stop ∧
    (Task._fire T ft s).task = s.task ∧
    (Task._fire T ft s).spawned = s.spawned := by
  unfold Task._fire
  obtain ⟨e1, e2, e3, e4⟩ :=
    call_noRet_proj T (s.callback s.iteration) h
      { s with trigger := T.set_last_call_time ft s.trigger }
  exact ⟨e1, e2, e3, e4⟩

/-- stop keeps iteration, task and trigger, and sets the stop event. -/
theorem stop_proj {σ : Type} (s : Task σ) :
    (Task.stop s).iteration = s.iteration ∧ (Task.stop s).task = s.task ∧
    (Task.stop s).trigger = s.trigger ∧ (Task.stop s)._stop = true ∧
    (Task.stop s).callback = s.callback :=
  ⟨rfl, rfl, rfl, rfl, rfl⟩

/-- finishLoop keeps everything except the settled flag of handle i. -/
theorem finishLoop_proj {σ : Type} (i : Nat) (s : Task σ) :
    (finishLoop i s).iteration = s.iteration ∧ (finishLoop i s).task = s.task ∧
    (finishLoop i s).trigger = s.trigger ∧ (finishLoop i s)._stop = s._stop ∧
    (finishLoop i s).spawned = s.spawned.set i true :=
  ⟨rfl, rfl, rfl, rfl, rfl⟩

/-- A stopped Task reads as not running: the stored handle, when present,
was cancelled by stop. -/
theorem running_stop_false {σ : Type} (s : Task σ) :
    (Task.stop s).running = false := by
  unfold Task.running Task.stop
  cases h : s.task with
  | none => simp [h]
  | some i => simp [h, getElem_set_true]

/-- Unfolding of the loop on an exhausted run budget. -/
theorem loop_nil_eq {σ : Type} (T : TriggerOps σ) (i : Nat) (s : Task σ) :
    Task._task_loop T i [] s = if s._stop then some (finishLoop i s) else none := rfl

/-- Unfolding of one pass of the loop body. -/
theorem loop_cons_eq {σ : Type} (T : TriggerOps σ) (i : Nat) (e : Bool)
    (env : List Bool) (s : Task σ) :
    Task._task_loop T i (e :: env) s =
      if s._stop then some (finishLoop i s)
      else
        match T.next_fire s.trigger with
        | none => some (finishLoop i (Task.stop s))
        | some ft =>
          if e then some (finishLoop i (Task.stop s))
          else Task._task_loop T i env (Task._fire T ft s) := rfl

/-- Once the stop event is set, the loop exits at once on every oracle,
settling its own handle and performing no further work. -/
theorem loop_exits_when_stopped {σ : Type} (T : TriggerOps σ) (i : Nat)
    (env : List Bool) (s : Task σ) (h : s._stop = true) :
    Task._task_loop T i env s = some (finishLoop i s) := by
  cases env with
  | nil => rw [loop_nil_eq, if_pos h]
  | cons e env => rw [loop_cons_eq, if_pos h]

/-- Stepping the trace commutes with taking one trigger step first. -/
theorem trigTrace_succ_left {σ : Type} (T : TriggerOps σ) (t : σ) :
    ∀ n, trigTrace T t (n + 1) = trigTrace T (trigStep T t) n := by
  intro n
  induction n with
  | zero => rfl
  | succ k ih =>
      show trigStep T (trigTrace T t (k + 1)) = trigStep T (trigTrace T (trigStep T t) k)
      rw [ih]

/-- The iteration counter never decreases across a loop run. -/
theorem loop_mono {σ : Type} (T : TriggerOps σ) (i : Nat) :
    ∀ (env : List Bool) (s s' : Task σ),
      Task._task_loop T i env s = some s' → s.iteration ≤ s'.iteration := by
  intro env
  induction env with
  | nil =>
      intro s s' h
      rw [loop_nil_eq] at h
      cases hstop : s._stop with
      | true =>
          rw [if_pos hstop] at h
          cases h
          simp [finishLoop]
      | false =>
          rw [if_neg (by simp [hstop])] at h
          cases h
  | cons e env ih =>
      intro s s' h
      rw [loop_cons_eq] at h
      cases hstop : s._stop with
      | true =>
          rw [if_pos hstop] at h
          cases h
          simp [finishLoop]
      | false =>
          rw [if_neg (by simp [hstop])] at h
          cases hnf : T.next_fire s.trigger with
          | none =>
              rw [hnf] at h
              cases h
              simp [finishLoop, Task.stop]
          | some ft =>
              rw [hnf] at h
              cases e with
              | true =>
                  simp only [if_pos] at h
                  cases h
                  simp [finishLoop, Task.stop]
              | false =>
                  simp only [Bool.false_eq_true, if_neg] at h
                  have h2 := ih (Task._fire T ft s) s' h
                  rw [fire_iteration] at h2
                  omega

/-- Along a loop run with a callback that never returns a trigger, the
iteration counter rises by at most the number of fires the trigger still
permits, the run only ends with the stop event set, and the ending settles
the handle the loop runs as, keeping the stored handle field. -/
theorem loop_bound {σ : Type} (T : TriggerOps σ) (i : Nat) :
    ∀ (env : List Bool) (s : Task σ) (K : Nat) (s' : Task σ),
      (∀ n, noRet (s.callback n) = true) →
      T.next_fire (trigTrace T s.trigger K) = none →
      Task._task_loop T i env s = some s' →
      s'.iteration ≤ s.iteration + K ∧ s'._stop = true ∧ s'.task = s.task ∧
      s'.spawned.getD i true = true := by
  intro env
  induction env with
  | nil =>
      intro s K s' hcb hK h
      rw [loop_nil_eq] at h
      cases hstop : s._stop with
      | true =>
          rw [if_pos hstop] at h
          cases h
          refine ⟨by simp [finishLoop], ?_, rfl, ?_⟩
          · show s._stop = true
            exact hstop
          · show (s.spawned.set i true).getD i true = true
            exact getD_set_true s.spawned i
      | false =>
          rw [if_neg (by simp [hstop])] at h
          cases h
  | cons e env ih =>
      intro s K s' hcb hK h
      rw [loop_cons_eq] at h
      cases hstop : s._stop with
      | true =>
          rw [if_pos hstop] at h
          cases h
          refine ⟨by simp [finishLoop], ?_, rfl, ?_⟩
          · show s._stop = true
            exact hstop
          · show (s.spawned.set i true).getD i true = true
            exact getD_set_true s.spawned i
      | false =>
          rw [if_neg (by simp [hstop])] at h
          cases hnf : T.next_fire s.trigger with
          | none =>
              rw [hnf] at h
              cases h
              refine ⟨by simp [finishLoop, Task.stop], rfl, rfl, ?_⟩
              show ((Task.stop s).spawned.set i true).getD i true = true
              exact getD_set_true (Task.stop s).spawned i
          | some ft =>
              rw [hnf] at h
              cases e with
              | true =>
                  simp only [if_pos] at h
                  cases h
                  refine ⟨by simp [finishLoop, Task.stop], rfl, rfl, ?_⟩
                  show ((Task.stop s).spawned.set i true).getD i true = true
                  exact getD_set_true (Task.stop s).spawned i
              | false =>
                  simp only [Bool.false_eq_true, if_neg] at h
                  cases K with
                  | zero =>
                      have : T.next_fire s.trigger = none := hK
                      rw [hnf] at this
                      cases this
                  | succ K0 =>
                      have hcb2 : ∀ n, noRet ((Task._fire T ft s).callback n) = true := by
                        rw [fire_callback]
                        exact hcb
                      have hK2 : T.next_fire (trigTrace T (Task._fire T ft s).trigger K0) = none := by
                        rw [(fire_noRet_proj T ft s (hcb s.iteration)).1]
                        have hstep : T.set_last_call_time ft s.trigger = trigStep T s.trigger := by
                          simp [trigStep, hnf]
                        rw [hstep, ← trigTrace_succ_left]
                        exact hK
                      obtain ⟨b1, b2, b3, b4⟩ := ih (Task._fire T ft s) K0 s' hcb2 hK2 h
                      refine ⟨?_, b2, ?_, b4⟩
                      · rw [fire_iteration] at b1
                        omega
                      · rw [b3, (fire_noRet_proj T ft s (hcb s.iteration)).2.2.1]

/-- A trigger whose schedule is exhausted after K more fires makes the loop
return within K + 1 passes when nothing stops it from outside. -/
theorem loop_terminates {σ : Type} (T : TriggerOps σ) (i : Nat) :
    ∀ (K : Nat) (s : Task σ),
      (∀ n, noRet (s.callback n) = true) →
      T.next_fire (trigTrace T s.trigger K) = none →
      ∃ s', Task._task_loop T i (List.replicate (K + 1) false) s = some s' := by
  intro K
  induction K with
  | zero =>
      intro s hcb hK
      cases hstop : s._stop with
      | true => exact ⟨finishLoop i s, loop_exits_when_stopped T i _ s hstop⟩
      | false =>
          refine ⟨finishLoop i (Task.stop s), ?_⟩
          rw [show List.replicate (0 + 1) false = [false] from rfl, loop_cons_eq,
            if_neg (by simp [hstop])]
          have hnf : T.next_fire s.trigger = none := hK
          rw [hnf]
  | succ K0 ih =>
      intro s hcb hK
      cases hstop : s._stop with
      | true => exact ⟨finishLoop i s, loop_exits_when_stopped T i _ s hstop⟩
      | false =>
          cases hnf : T.next_fire s.trigger with
          | none =>
              refine ⟨finishLoop i (Task.stop s), ?_⟩
              rw [show List.replicate (K0 + 1 + 1) false = false :: List.replicate (K0 + 1) false from rfl,
                loop_cons_eq, if_neg (by simp [hstop]), hnf]
          | some ft =>
              have hcb2 : ∀ n, noRet ((Task._fire T ft s).callback n) = true := by
                rw [fire_callback]
                exact hcb
              have hK2 : T.next_fire (trigTrace T (Task._fire T ft s).trigger K0) = none := by
                rw [(fire_noRet_proj T ft s (hcb s.iteration)).1]
                have hstep : T.set_last_call_time ft s.trigger = trigStep T s.trigger := by
                  simp [trigStep, hnf]
                rw [hstep, ← trigTrace_succ_left]
                exact hK
              obtain ⟨s', hs'⟩ := ih (Task._fire T ft s) hcb2 hK2
              refine ⟨s', ?_⟩
              rw [show List.replicate (K0 + 1 + 1) false = false :: List.replicate (K0 + 1) false from rfl,
                loop_cons_eq, if_neg (by simp [hstop]), hnf]
              exact hs'

/-- Claim C1: construction never succeeds.  Task.__init__ stores callback,
trigger, a cleared stop event, no handle and iteration 0, but then
evaluates uuid.uuid4() although task.py never imports uuid, so every
construction raises NameError instead of yielding a Task; the claim that
Task(callback, trigger) succeeds with a generated identity fails on the
code. -/
theorem C1_task_init_always_raises_nameerror :
    ∀ (σ : Type) (cb : Nat → CallResult σ) (trig : σ),
      Task.init cb trig = Except.error nameErrorUuid := by
  intro σ cb trig
  rfl

/-- Claim C2: reschedule mutates the trigger and then raises.  The body of
Task.reschedule assigns self.trigger = trigger and then evaluates
self.restart(*args, **kwargs); args and kwargs are bound nowhere in scope,
so a NameError propagates to the caller after the trigger field was already
replaced and before any restart happens — the trigger replacement and the
restart do not happen together, and an exception reaches the caller. -/
theorem C2_reschedule_sets_trigger_then_raises :
    ∀ (σ : Type) (T : TriggerOps σ) (loopActive : Bool) (s : Task σ) (t : σ),
      Task.reschedule T loopActive s t = ({ s with trigger := t }, some nameErrorArgs) := by
  intro σ T loopActive s t
  rfl

/-- Claim C3: start with no active event loop is recovered locally.  The
try block of Task.start catches the RuntimeError of asyncio.create_task,
logs a descriptive message through the logging collaborator, and the handle
is never assigned, so a Task that was unstarted stays unstarted and not
running, with iteration untouched. -/
theorem C3_start_without_event_loop {σ : Type} (T : TriggerOps σ) (s : Task σ)
    (h : s.task = none) :
    (Task.start T false s).task = none ∧
    (Task.start T false s).errors = s.errors ++ [startErrorMsg] ∧
    (Task.start T false s).running = false ∧
    (Task.start T false s).iteration = s.iteration := by
  refine ⟨?_, rfl, ?_, rfl⟩
  · show s.task = none
    exact h
  · unfold Task.running
    show (match s.task with
      | some i => !((s.spawned : List Bool).getD i true)
      | none => false) = false
    rw [h]

/-- Claim C3 witness at a concrete unstarted Task. -/
theorem C3_start_without_event_loop_witness :
    sampleTask.task = none ∧
    ((Task.start listTrigger false sampleTask).task = none ∧
     (Task.start listTrigger false sampleTask).errors = sampleTask.errors ++ [startErrorMsg] ∧
     (Task.start listTrigger false sampleTask).running = false ∧
     (Task.start listTrigger false sampleTask).iteration = sampleTask.iteration) :=
  ⟨rfl, C3_start_without_event_loop listTrigger sampleTask rfl⟩

/-- Claim C9: start does not guard against a loop already running.  After a
first start the Task is running with one live loop; a second start launches
a new loop and overwrites the stored handle without stopping the first, so
two live loops belong to the same Task — the claimed invariant fails.
restart, by contrast, stops before starting and leaves a single live
loop. -/
theorem C9_double_start_leaves_two_live_loops :
    (Task.start listTrigger true sampleTask).running = true ∧
    liveLoops (Task.start listTrigger true sampleTask) = 1 ∧
    liveLoops (Task.start listTrigger true (Task.start listTrigger true sampleTask)) = 2 ∧
    liveLoops (Task.restart listTrigger true (Task.start listTrigger true sampleTask)) = 1 := by
  refine ⟨rfl, rfl, rfl, rfl⟩

/-- Equality of cores is equality of the observable components. -/
theorem core_eq_iff {σ : Type} {s₁ s₂ : Task σ} :
    core s₁ = core s₂ ↔
      (s₁.trigger = s₂.trigger ∧ s₁._stop = s₂._stop ∧ s₁.task = s₂.task ∧
       s₁.iteration = s₂.iteration ∧ s₁.spawned = s₂.spawned ∧ s₁.uuid = s₂.uuid) := by
  simp [core, Prod.ext_iff]

/-- The callback invocation never changes the uuid. -/
theorem call_uuid {σ : Type} (T : TriggerOps σ) (r : CallResult σ) (s : Task σ) :
    (Task.call T r s).uuid = s.uuid := by
  cases r with
  | ok => rfl
  | ret t => rfl
  | raise e => rfl

/-- Firing never changes the uuid. -/
theorem fire_uuid {σ : Type} (T : TriggerOps σ) (ft : Int) (s : Task σ) :
    (Task._fire T ft s).uuid = s.uuid := by
  unfold Task._fire
  simp [call_uuid]

/-- Core of a fire with a non-trigger-returning callback. -/
theorem core_fire {σ : Type} (T : TriggerOps σ) (ft : Int) (s : Task σ)
    (h : noRet (s.callback s.iteration) = true) :
    core (Task._fire T ft s) =
      (T.set_last_call_time ft s.trigger, s._stop, s.task, s.iteration + 1,
       s.spawned, s.uuid) := by
  obtain ⟨e1, e2, e3, e4⟩ := fire_noRet_proj T ft s h
  unfold core
  rw [e1, e2, e3, e4, fire_iteration, fire_uuid]

/-- finishLoop respects core equality. -/
theorem core_finish_congr {σ : Type} (i : Nat) {s₁ s₂ : Task σ}
    (hc : core s₁ = core s₂) :
    core (finishLoop i s₁) = core (finishLoop i s₂) := by
  obtain ⟨c1, c2, c3, c4, c5, c6⟩ := core_eq_iff.mp hc
  simp [core, finishLoop, c1, c2, c3, c4, c5, c6]

/-- stop respects core equality. -/
theorem core_stop_congr {σ : Type} {s₁ s₂ : Task σ} (hc : core s₁ = core s₂) :
    core (Task.stop s₁) = core (Task.stop s₂) := by
  obtain ⟨c1, c2, c3, c4, c5, c6⟩ := core_eq_iff.mp hc
  simp [core, Task.stop, c1, c2, c3, c4, c5, c6]

/-- Firing respects core equality across different callbacks, as long as
neither callback returns a trigger. -/
theorem fire_core_congr {σ : Type} (T : TriggerOps σ) (ft : Int)
    {s₁ s₂ : Task σ}
    (h1 : noRet (s₁.callback s₁.iteration) = true)
    (h2 : noRet (s₂.callback s₂.iteration) = true)
    (hc : core s₁ = core s₂) :
    core (Task._fire T ft s₁) = core (Task._fire T ft s₂) := by
  obtain ⟨c1, c2, c3, c4, c5, c6⟩ := core_eq_iff.mp hc
  rw [core_fire T ft s₁ h1, core_fire T ft s₂ h2, c1, c2, c3, c4, c5, c6]

/-- The observable run of the loop does not depend on the callback, as long
as the callback never returns a trigger: exceptions it raises only feed the
error sink. -/
theorem loop_core_congr {σ : Type} (T : TriggerOps σ) (i : Nat) :
    ∀ (env : List Bool) (s₁ s₂ : Task σ),
      (∀ n, noRet (s₁.callback n) = true) →
      (∀ n, noRet (s₂.callback n) = true) →
      core s₁ = core s₂ →
      Option.map core (Task._task_loop T i env s₁)
        = Option.map core (Task._task_loop T i env s₂) := by
  intro env
  induction env with
  | nil =>
      intro s₁ s₂ h1 h2 hc
      obtain ⟨c1, c2, c3, c4, c5, c6⟩ := core_eq_iff.mp hc
      rw [loop_nil_eq, loop_nil_eq, c2]
      by_cases hstop : s₂._stop = true
      · rw [if_pos hstop, if_pos hstop]
        exact congrArg some (core_finish_congr i hc)
      · rw [if_neg hstop, if_neg hstop]
  | cons e env ih =>
      intro s₁ s₂ h1 h2 hc
      obtain ⟨c1, c2, c3, c4, c5, c6⟩ := core_eq_iff.mp hc
      rw [loop_cons_eq, loop_cons_eq, c2, c1]
      by_cases hstop : s₂._stop = true
      · rw [if_pos hstop, if_pos hstop]
        exact congrArg some (core_finish_congr i hc)
      · rw [if_neg hstop, if_neg hstop]
        cases hnf : T.next_fire s₂.trigger with
        | none =>
            exact congrArg some (core_finish_congr i (core_stop_congr hc))
        | some ft =>
            cases e with
            | true =>
                exact congrArg some (core_finish_congr i (core_stop_congr hc))
            | false =>
                exact ih (Task._fire T ft s₁) (Task._fire T ft s₂)
                  (by rw [fire_callback]; exact h1)
                  (by rw [fire_callback]; exact h2)
                  (fire_core_congr T ft (h1 s₁.iteration) (h2 s₂.iteration) hc)

/-- Equal core images of optional states give equal iteration images. -/
theorem iteration_of_core_map {σ : Type} {x y : Option (Task σ)}
    (h : Option.map core x = Option.map core y) :
    Option.map Task.iteration x = Option.map Task.iteration y := by
  cases x with
  | none =>
      cases y with
      | none => rfl
      | some b => exact Option.noConfusion h
  | some a =>
      cases y with
      | none => exact Option.noConfusion h
      | some b =>
          have h2 : core a = core b := Option.some.inj h
          show some a.iteration = some b.iteration
          rw [(core_eq_iff.mp h2).2.2.2.1]

/-- Claim C4: a raising callback is recovered inside the invocation step and
does not affect the loop.  The except clause of Task.__call__ catches the
exception and routes it to the error sink, returning normally; and two
Tasks in the same observable state whose callbacks never return a trigger
run their loops to the same iteration counts on every oracle, whichever of
them raises — so after a failing firing the loop fires exactly as often as
it would have with a callback that never fails. -/
theorem C4_callback_exception_recovered {σ : Type} (T : TriggerOps σ)
    (e : String) (s s₁ s₂ : Task σ) (i : Nat) (env : List Bool)
    (h1 : ∀ n, noRet (s₁.callback n) = true)
    (h2 : ∀ n, noRet (s₂.callback n) = true)
    (hc : core s₁ = core s₂) :
    Task.call T (CallResult.raise e) s = { s with errors := s.errors ++ [e] } ∧
    Option.map Task.iteration (Task._task_loop T i env s₁)
      = Option.map Task.iteration (Task._task_loop T i env s₂) := by
  refine ⟨rfl, ?_⟩
  exact iteration_of_core_map (loop_core_congr T i env s₁ s₂ h1 h2 hc)

/-- Claim C4 witness: the raising and the non-raising callback drive the
scenario Task through the same two fires. -/
theorem C4_callback_exception_recovered_witness :
    (∀ n, noRet (raisingSample.callback n) = true) ∧
    (∀ n, noRet (startedSample.callback n) = true) ∧
    core raisingSample = core startedSample ∧
    (Task.call listTrigger (CallResult.raise ("boom")) sampleTask
        = { sampleTask with errors := sampleTask.errors ++ [("boom")] } ∧
     Option.map Task.iteration
        (Task._task_loop listTrigger 0 [false, false, false] raisingSample)
      = Option.map Task.iteration
        (Task._task_loop listTrigger 0 [false, false, false] startedSample)) :=
  ⟨fun _ => rfl, fun _ => rfl, rfl,
   C4_callback_exception_recovered listTrigger ("boom") sampleTask raisingSample
     startedSample 0 [false, false, false] (fun _ => rfl) (fun _ => rfl) rfl⟩

/-- Claim C5: iteration counts fires, exactly.  A fire adds exactly one;
stop, start and restart leave the counter untouched; and a loop run never
decreases it — so the counter is monotone over the lifetime of the Task and
is never reset. -/
theorem C5_iteration_monotone {σ : Type} (T : TriggerOps σ) (loopActive : Bool)
    (ft : Int) (i : Nat) (s : Task σ) :
    (Task._fire T ft s).iteration = s.iteration + 1 ∧
    (Task.stop s).iteration = s.iteration ∧
    (Task.start T loopActive s).iteration = s.iteration ∧
    (Task.restart T loopActive s).iteration = s.iteration ∧
    ∀ (env : List Bool) (s' : Task σ),
      Task._task_loop T i env s = some s' → s.iteration ≤ s'.iteration := by
  refine ⟨fire_iteration T ft s, rfl, ?_, ?_, ?_⟩
  · cases loopActive with
    | true => rfl
    | false => rfl
  · cases loopActive with
    | true => rfl
    | false => rfl
  · intro env s' h
    exact loop_mono T i env s s' h

/-- Claim C5 witness: the scenario loop run ends at iteration 2 from 0. -/
theorem C5_iteration_monotone_witness :
    Task._task_loop listTrigger 0 [false, false, false] startedSample
        = some loopEndSample ∧
    startedSample.iteration ≤ loopEndSample.iteration :=
  ⟨rfl,
   (C5_iteration_monotone listTrigger true 1 0 startedSample).2.2.2.2
     [false, false, false] loopEndSample rfl⟩

/-- Claim C6: an exhausted schedule ends the loop.  With a callback that
never replaces the trigger and a trigger whose next_fire is none after K
recorded fires, every run of the loop of a started Task gains at most K
iterations and ends with the stop event set and running false, and with no
outside stop the loop does return within K + 1 passes. -/
theorem C6_trigger_exhaustion_stops_task {σ : Type} (T : TriggerOps σ)
    (i K : Nat) (s : Task σ)
    (hcb : ∀ n, noRet (s.callback n) = true)
    (htask : s.task = some i)
    (hK : T.next_fire (trigTrace T s.trigger K) = none) :
    (∀ (env : List Bool) (s' : Task σ),
        Task._task_loop T i env s = some s' →
        s'.iteration ≤ s.iteration + K ∧ s'._stop = true ∧ s'.running = false) ∧
    (∃ s', Task._task_loop T i (List.replicate (K + 1) false) s = some s') := by
  constructor
  · intro env s' h
    obtain ⟨b1, b2, b3, b4⟩ := loop_bound T i env s K s' hcb hK h
    refine ⟨b1, b2, ?_⟩
    unfold Task.running
    rw [b3, htask]
    show (!(s'.spawned.getD i true)) = false
    rw [b4]
    rfl
  · exact loop_terminates T i K s hcb hK

/-- Claim C6 witness: the scenario trigger permits two fires, and the
started scenario Task stops exactly there. -/
theorem C6_trigger_exhaustion_stops_task_witness :
    (∀ n, noRet (startedSample.callback n) = true) ∧
    startedSample.task = some 0 ∧
    listTrigger.next_fire (trigTrace listTrigger startedSample.trigger 2) = none ∧
    ((∀ (env : List Bool) (s' : Task (List Int)),
        Task._task_loop listTrigger 0 env startedSample = some s' →
        s'.iteration ≤ startedSample.iteration + 2 ∧ s'._stop = true ∧
        s'.running = false) ∧
     (∃ s', Task._task_loop listTrigger 0 (List.replicate (2 + 1) false)
        startedSample = some s')) :=
  ⟨fun _ => rfl, rfl, rfl,
   C6_trigger_exhaustion_stops_task listTrigger 0 2 startedSample
     (fun _ => rfl) rfl rfl⟩

/-- Settled handles stay settled when another handle settles. -/
theorem getD_set_true_mono : ∀ (l : List Bool) (i j : Nat),
    l.getD j true = true → (l.set i true).getD j true = true := by
  intro l
  induction l with
  | nil =>
      intro i j h
      exact h
  | cons a l ih =>
      intro i j h
      cases i with
      | zero =>
          cases j with
          | zero => simp
          | succ j0 => simpa using h
      | succ i0 =>
          cases j with
          | zero => simpa using h
          | succ j0 =>
              have := ih i0 j0 (by simpa using h)
              simpa using this

/-- After a stop and the settling of the loop handle the Task reads as not
running, whatever handle the loop ran as. -/
theorem running_finish_stop_false {σ : Type} (i : Nat) (s : Task σ) :
    (finishLoop i (Task.stop s)).running = false := by
  unfold Task.running finishLoop Task.stop
  cases h : s.task with
  | none => simp [h]
  | some j =>
      simp only [h]
      show (!(((s.spawned.set j true).set i true).getD j true)) = false
      rw [getD_set_true_mono (s.spawned.set j true) i j (getD_set_true s.spawned j)]
      rfl

/-- Claim C7: stop wins everywhere.  stop is idempotent and safe when not
running, leaves the Task not running with its iteration untouched; a loop
entered with the stop event set exits at once without firing on every
oracle; and when the stop signal wins (or ties) the race against a pending
fire time, the loop exits without that fire even though the trigger still
has a next fire time. -/
theorem C7_stop_prevents_further_firing {σ : Type} (T : TriggerOps σ) (i : Nat)
    (env : List Bool) (s : Task σ) (ft : Int)
    (hss : s._stop = false) (hnf : T.next_fire s.trigger = some ft) :
    Task.stop (Task.stop s) = Task.stop s ∧
    (Task.stop s).running = false ∧
    (Task.stop s).iteration = s.iteration ∧
    Task._task_loop T i env (Task.stop s) = some (finishLoop i (Task.stop s)) ∧
    (finishLoop i (Task.stop s)).iteration = s.iteration ∧
    Task._task_loop T i (true :: env) s = some (finishLoop i (Task.stop s)) ∧
    (finishLoop i (Task.stop s)).running = false := by
  refine ⟨?_, running_stop_false s, rfl, ?_, rfl, ?_, running_finish_stop_false i s⟩
  · unfold Task.stop
    cases h : s.task with
    | none => simp [h]
    | some j => simp [h, List.set_set]
  · exact loop_exits_when_stopped T i env (Task.stop s) rfl
  · rw [loop_cons_eq, if_neg (by simp [hss]), hnf]
    simp

/-- Claim C7 witness: stopping the started scenario Task just before its
first fire. -/
theorem C7_stop_prevents_further_firing_witness :
    startedSample._stop = false ∧
    listTrigger.next_fire startedSample.trigger = some 1 ∧
    (Task.stop (Task.stop startedSample) = Task.stop startedSample ∧
     (Task.stop startedSample).running = false ∧
     (Task.stop startedSample).iteration = startedSample.iteration ∧
     Task._task_loop listTrigger 0 [false] (Task.stop startedSample)
        = some (finishLoop 0 (Task.stop startedSample)) ∧
     (finishLoop 0 (Task.stop startedSample)).iteration = startedSample.iteration ∧
     Task._task_loop listTrigger 0 (true :: [false]) startedSample
        = some (finishLoop 0 (Task.stop startedSample)) ∧
     (finishLoop 0 (Task.stop startedSample)).running = false) :=
  ⟨rfl, rfl,
   C7_stop_prevents_further_firing listTrigger 0 [false] startedSample 1 rfl rfl⟩

/-- An absent key reads as none. -/
theorem dictGet_of_not_contains {α : Type} :
    ∀ (l : List (String × α)) (k : String),
      containsKey l k = false → dictGet l k = none := by
  intro l
  induction l with
  | nil => intro k h; rfl
  | cons p rest ih =>
      intro k h
      have hh : (p.1 == k) = false ∧ containsKey rest k = false := by
        simpa [containsKey, Bool.or_eq_false_iff] using h
      show (if p.1 == k then some p.2 else dictGet rest k) = none
      rw [hh.1]
      simpa using ih k hh.2

/-- Replacement in place stores the new value at the key. -/
theorem dictGet_map_replace {α : Type} (k : String) (v : α) :
    ∀ (l : List (String × α)),
      containsKey l k = true →
      dictGet (l.map (fun p => if p.1 == k then (k, v) else p)) k = some v := by
  intro l
  induction l with
  | nil => intro h; cases h
  | cons p rest ih =>
      intro h
      by_cases hk : (p.1 == k) = true
      · show dictGet ((if p.1 == k then (k, v) else p) ::
            rest.map (fun p => if p.1 == k then (k, v) else p)) k = some v
        rw [if_pos hk]
        show (if k == k then some v else _) = some v
        simp
      · have hrest : containsKey rest k = true := by
          have := h
          simp only [containsKey, List.any_cons] at this
          rcases Bool.or_eq_true_iff.mp this with h1 | h2
          · exact absurd h1 hk
          · exact h2
        show dictGet ((if p.1 == k then (k, v) else p) ::
            rest.map (fun p => if p.1 == k then (k, v) else p)) k = some v
        rw [if_neg hk]
        show (if p.1 == k then some p.2 else _) = some v
        rw [if_neg hk]
        exact ih hrest

/-- Appending a fresh entry makes its key readable. -/
theorem dictGet_append_fresh {α : Type} (k : String) (v : α) :
    ∀ (l : List (String × α)),
      containsKey l k = false → dictGet (l ++ [(k, v)]) k = some v := by
  intro l
  induction l with
  | nil =>
      intro h
      show (if k == k then some v else _) = some v
      simp
  | cons p rest ih =>
      intro h
      have hh : (p.1 == k) = false ∧ containsKey rest k = false := by
        simpa [containsKey, Bool.or_eq_false_iff] using h
      show (if p.1 == k then some p.2 else dictGet (rest ++ [(k, v)]) k) = some v
      rw [hh.1]
      simpa using ih hh.2

/-- A dict write makes the written key read back the written value. -/
theorem dictGet_insert_self {α : Type} (l : List (String × α)) (k : String)
    (v : α) : dictGet (dictInsert l k v) k = some v := by
  unfold dictInsert
  by_cases hc : containsKey l k = true
  · rw [if_pos hc]
    exact dictGet_map_replace k v l hc
  · rw [if_neg hc]
    exact dictGet_append_fresh k v l (Bool.not_eq_true _ ▸ Bool.of_not_eq_true hc)

/-- A dict write leaves every other key reading what it read before. -/
theorem dictGet_insert_ne {α : Type} (l : List (String × α)) (k k2 : String)
    (v : α) (hne : k2 ≠ k) : dictGet (dictInsert l k v) k2 = dictGet l k2 := by
  unfold dictInsert
  by_cases hc : containsKey l k = true
  · rw [if_pos hc]
    clear hc
    induction l with
    | nil => rfl
    | cons p rest ih =>
        by_cases hk : (p.1 == k) = true
        · show dictGet ((if p.1 == k then (k, v) else p) :: _) k2 = _
          rw [if_pos hk]
          show (if k == k2 then some v else _) = (if p.1 == k2 then some p.2 else _)
          have h1 : (k == k2) = false := by
            simp [Ne.symm hne]
          have h2 : (p.1 == k2) = false := by
            have : p.1 = k := by simpa using hk
            simp [this, Ne.symm hne]
          rw [h1, h2]
          simpa using ih
        · show dictGet ((if p.1 == k then (k, v) else p) :: _) k2 = _
          rw [if_neg hk]
          show (if p.1 == k2 then some p.2 else _) = (if p.1 == k2 then some p.2 else _)
          by_cases hk2 : (p.1 == k2) = true
          · rw [if_pos hk2, if_pos hk2]
          · rw [if_neg hk2, if_neg hk2]
            simpa using ih
  · rw [if_neg hc]
    clear hc
    induction l with
    | nil =>
        show (if k == k2 then some v else none) = none
        have h1 : (k == k2) = false := by
          simp [Ne.symm hne]
        rw [h1]
        rfl
    | cons p rest ih =>
        show (if p.1 == k2 then some p.2 else _) = (if p.1 == k2 then some p.2 else _)
        by_cases hk2 : (p.1 == k2) = true
        · rw [if_pos hk2, if_pos hk2]
        · rw [if_neg hk2, if_neg hk2]
          simpa using ih

/-- Presence of a key as membership of the key list. -/
theorem containsKey_iff_mem {α : Type} (l : List (String × α)) (k : String) :
    containsKey l k = true ↔ k ∈ l.map Prod.fst := by
  simp only [containsKey, List.any_eq_true, List.mem_map, beq_iff_eq]

/-- Replacement in place is the identity when the key is absent. -/
theorem map_replace_of_not_contains {α : Type} (k : String) (v : α) :
    ∀ (l : List (String × α)), containsKey l k = false →
      l.map (fun p => if p.1 == k then (k, v) else p) = l := by
  intro l
  induction l with
  | nil => intro h; rfl
  | cons p rest ih =>
      intro h
      have hh : (p.1 == k) = false ∧ containsKey rest k = false := by
        simpa [containsKey, Bool.or_eq_false_iff] using h
      show (if p.1 == k then (k, v) else p) :: _ = _
      rw [hh.1]
      simp only [Bool.false_eq_true, if_false]
      rw [ih hh.2]

/-- Replacement in place keeps the key present. -/
theorem containsKey_map_replace {α : Type} (k : String) (v : α) :
    ∀ (l : List (String × α)), containsKey l k = true →
      containsKey (l.map (fun p => if p.1 == k then (k, v) else p)) k = true := by
  intro l
  induction l with
  | nil => intro h; cases h
  | cons p rest ih =>
      intro h
      by_cases hk : (p.1 == k) = true
      · show containsKey ((if p.1 == k then (k, v) else p) :: _) k = true
        rw [if_pos hk]
        simp [containsKey]
      · have hrest : containsKey rest k = true := by
          simp only [containsKey, List.any_cons] at h
          rcases Bool.or_eq_true_iff.mp h with h1 | h2
          · exact absurd h1 hk
          · exact h2
        show containsKey ((if p.1 == k then (k, v) else p) :: _) k = true
        rw [if_neg hk]
        simp only [containsKey, List.any_cons, Bool.or_eq_true_iff]
        right
        simpa [containsKey] using ih hrest

/-- Writing a key makes the key present. -/
theorem containsKey_insert_self {α : Type} (l : List (String × α)) (k : String)
    (v : α) : containsKey (dictInsert l k v) k = true := by
  unfold dictInsert
  by_cases hc : containsKey l k = true
  · rw [if_pos hc]
    exact containsKey_map_replace k v l hc
  · rw [if_neg hc]
    simp [containsKey]

/-- Replacing at a key twice is replacing once. -/
theorem map_replace_idem {α : Type} (k : String) (v : α) :
    ∀ (l : List (String × α)),
      (l.map (fun p => if p.1 == k then (k, v) else p)).map
          (fun p => if p.1 == k then (k, v) else p)
        = l.map (fun p => if p.1 == k then (k, v) else p) := by
  intro l
  induction l with
  | nil => rfl
  | cons p rest ih =>
      show (if (if p.1 == k then (k, v) else p).1 == k then (k, v)
          else (if p.1 == k then (k, v) else p)) ::
          (rest.map (fun p => if p.1 == k then (k, v) else p)).map
            (fun p => if p.1 == k then (k, v) else p)
        = (if p.1 == k then (k, v) else p) ::
          rest.map (fun p => if p.1 == k then (k, v) else p)
      by_cases hk : (p.1 == k) = true
      · rw [if_pos hk, ite_self, ih]
      · rw [if_neg hk, if_neg hk, ih]

/-- Writing the same key and value twice is one write. -/
theorem dictInsert_idem {α : Type} (l : List (String × α)) (k : String)
    (v : α) : dictInsert (dictInsert l k v) k v = dictInsert l k v := by
  have hc2 := containsKey_insert_self l k v
  show (if containsKey (dictInsert l k v) k then
      (dictInsert l k v).map (fun p => if p.1 == k then (k, v) else p)
    else dictInsert l k v ++ [(k, v)]) = dictInsert l k v
  rw [if_pos hc2]
  unfold dictInsert
  by_cases hc : containsKey l k = true
  · rw [if_pos hc]
    exact map_replace_idem k v l
  · rw [if_neg hc]
    rw [List.map_append, map_replace_of_not_contains k v l
      (Bool.not_eq_true _ ▸ Bool.of_not_eq_true hc)]
    show l ++ [if (k == k) then (k, v) else (k, v)] = l ++ [(k, v)]
    rw [ite_self]

/-- An absent key is stored under no entry. -/
theorem countKey_of_not_contains {α : Type} :
    ∀ (l : List (String × α)) (k : String),
      containsKey l k = false → countKey l k = 0 := by
  intro l
  induction l with
  | nil => intro k h; rfl
  | cons p rest ih =>
      intro k h
      have hh : (p.1 == k) = false ∧ containsKey rest k = false := by
        simpa [containsKey, Bool.or_eq_false_iff] using h
      unfold countKey
      rw [List.filter_cons, hh.1]
      simpa [countKey] using ih k hh.2

/-- Under unique keys, a dict write leaves exactly one entry at the written
key. -/
theorem countKey_insert_nodup {α : Type} (k : String) (v : α) :
    ∀ (l : List (String × α)), NodupKeys l →
      countKey (dictInsert l k v) k = 1 := by
  intro l
  induction l with
  | nil =>
      intro hnd
      show countKey [(k, v)] k = 1
      simp [countKey, List.filter]
  | cons p rest ih =>
      intro hnd
      have hnd2 : p.1 ∉ rest.map Prod.fst ∧ NodupKeys rest := by
        simpa [NodupKeys] using hnd
      unfold dictInsert
      by_cases hc : containsKey (p :: rest) k = true
      · rw [if_pos hc]
        by_cases hk : (p.1 == k) = true
        · have hpk : p.1 = k := by simpa using hk
          show countKey ((if p.1 == k then (k, v) else p) ::
            rest.map (fun p => if p.1 == k then (k, v) else p)) k = 1
          rw [if_pos hk]
          have hrest : containsKey rest k = false := by
            cases hb : containsKey rest k with
            | false => rfl
            | true =>
                have hmem : k ∈ rest.map Prod.fst := (containsKey_iff_mem rest k).mp hb
                rw [← hpk] at hmem
                exact absurd hmem hnd2.1
          have hkk : ((k, v).1 == k) = true := by simp
          unfold countKey
          rw [List.filter_cons, if_pos hkk, map_replace_of_not_contains k v rest hrest]
          have h0 := countKey_of_not_contains rest k hrest
          unfold countKey at h0
          rw [List.length_cons, h0]
        · have hrest : containsKey rest k = true := by
            simp only [containsKey, List.any_cons] at hc
            rcases Bool.or_eq_true_iff.mp hc with h1 | h2
            · exact absurd h1 hk
            · exact h2
          show countKey ((if p.1 == k then (k, v) else p) ::
            rest.map (fun p => if p.1 == k then (k, v) else p)) k = 1
          rw [if_neg hk]
          unfold countKey
          rw [List.filter_cons, if_neg hk]
          have hih := ih hnd2.2
          unfold dictInsert at hih
          rw [if_pos hrest] at hih
          unfold countKey at hih
          exact hih
      · rw [if_neg hc]
        have hcf : containsKey (p :: rest) k = false := by
          cases hb : containsKey (p :: rest) k with
          | false => rfl
          | true => exact absurd hb hc
        have h0 := countKey_of_not_contains (p :: rest) k hcf
        unfold countKey at h0 ⊢
        rw [List.filter_append, List.length_append, h0]
        simp [List.filter]

/-- Claim C8: the manager looks up and delegates, and silently ignores
unknown identities.  get_task on an unknown identity returns none; start,
stop and restart on an unknown identity change nothing and raise nothing;
and on a known identity each operation applies the corresponding Task
operation to the stored Task and touches no other entry. -/
theorem C8_manager_lookup_and_delegation {σ : Type} (T : TriggerOps σ)
    (loopActive : Bool) (m : TaskManager σ) (k : String) :
    (TaskManager.get_task m k = none →
        TaskManager.start_task T loopActive m k = m ∧
        TaskManager.stop_task m k = m ∧
        TaskManager.restart_task T loopActive m k = m) ∧
    (∀ t, TaskManager.get_task m k = some t →
        TaskManager.get_task (TaskManager.start_task T loopActive m k) k
          = some (Task.start T loopActive t) ∧
        TaskManager.get_task (TaskManager.stop_task m k) k
          = some (Task.stop t) ∧
        TaskManager.get_task (TaskManager.restart_task T loopActive m k) k
          = some (Task.restart T loopActive t) ∧
        ∀ k2, k2 ≠ k →
          TaskManager.get_task (TaskManager.start_task T loopActive m k) k2
            = TaskManager.get_task m k2 ∧
          TaskManager.get_task (TaskManager.stop_task m k) k2
            = TaskManager.get_task m k2 ∧
          TaskManager.get_task (TaskManager.restart_task T loopActive m k) k2
            = TaskManager.get_task m k2) := by
  constructor
  · intro h
    refine ⟨?_, ?_, ?_⟩
    · unfold TaskManager.start_task
      rw [h]
    · unfold TaskManager.stop_task
      rw [h]
    · unfold TaskManager.restart_task
      rw [h]
  · intro t h
    refine ⟨?_, ?_, ?_, ?_⟩
    · unfold TaskManager.start_task
      rw [h]
      show dictGet (dictInsert m.tasks k (Task.start T loopActive t)) k = _
      rw [dictGet_insert_self]
    · unfold TaskManager.stop_task
      rw [h]
      show dictGet (dictInsert m.tasks k (Task.stop t)) k = _
      rw [dictGet_insert_self]
    · unfold TaskManager.restart_task
      rw [h]
      show dictGet (dictInsert m.tasks k (Task.restart T loopActive t)) k = _
      rw [dictGet_insert_self]
    · intro k2 hne
      refine ⟨?_, ?_, ?_⟩
      · unfold TaskManager.start_task
        rw [h]
        show dictGet (dictInsert m.tasks k (Task.start T loopActive t)) k2 = _
        rw [dictGet_insert_ne m.tasks k k2 _ hne]
        rfl
      · unfold TaskManager.stop_task
        rw [h]
        show dictGet (dictInsert m.tasks k (Task.stop t)) k2 = _
        rw [dictGet_insert_ne m.tasks k k2 _ hne]
        rfl
      · unfold TaskManager.restart_task
        rw [h]
        show dictGet (dictInsert m.tasks k (Task.restart T loopActive t)) k2 = _
        rw [dictGet_insert_ne m.tasks k k2 _ hne]
        rfl

/-- Claim C8 witness: an empty manager ignores a ghost identity; a manager
holding the scenario Task delegates at its identity. -/
theorem C8_manager_lookup_and_delegation_witness :
    TaskManager.get_task sampleManager ("ghost") = none ∧
    (TaskManager.start_task listTrigger true sampleManager ("ghost") = sampleManager ∧
     TaskManager.stop_task sampleManager ("ghost") = sampleManager ∧
     TaskManager.restart_task listTrigger true sampleManager ("ghost") = sampleManager) ∧
    TaskManager.get_task sampleManager1 ("tok") = some sampleTask ∧
    (TaskManager.get_task
        (TaskManager.start_task listTrigger true sampleManager1 ("tok")) ("tok")
      = some (Task.start listTrigger true sampleTask) ∧
     TaskManager.get_task (TaskManager.stop_task sampleManager1 ("tok")) ("tok")
      = some (Task.stop sampleTask) ∧
     TaskManager.get_task
        (TaskManager.restart_task listTrigger true sampleManager1 ("tok")) ("tok")
      = some (Task.restart listTrigger true sampleTask) ∧
     ∀ k2, k2 ≠ ("tok") →
       TaskManager.get_task
          (TaskManager.start_task listTrigger true sampleManager1 ("tok")) k2
        = TaskManager.get_task sampleManager1 k2 ∧
       TaskManager.get_task (TaskManager.stop_task sampleManager1 ("tok")) k2
        = TaskManager.get_task sampleManager1 k2 ∧
       TaskManager.get_task
          (TaskManager.restart_task listTrigger true sampleManager1 ("tok")) k2
        = TaskManager.get_task sampleManager1 k2) :=
  ⟨rfl,
   (C8_manager_lookup_and_delegation listTrigger true sampleManager ("ghost")).1 rfl,
   rfl,
   (C8_manager_lookup_and_delegation listTrigger true sampleManager1 ("tok")).2
     sampleTask rfl⟩

/-- Claim C10: add_task stores under the uuid of the Task and returns it.
The returned identity is exactly the uuid of the Task, looking that uuid up
returns the Task, adding the same Task twice is the same manager as adding
it once, and under unique keys the mapping holds a single entry for the
Task after the add. -/
theorem C10_add_task_roundtrip {σ : Type} (m : TaskManager σ) (t : Task σ) :
    (TaskManager.add_task m t).2 = t.uuid ∧
    TaskManager.get_task (TaskManager.add_task m t).1 t.uuid = some t ∧
    TaskManager.add_task (TaskManager.add_task m t).1 t = TaskManager.add_task m t ∧
    (NodupKeys m.tasks → countKey (TaskManager.add_task m t).1.tasks t.uuid = 1) := by
  refine ⟨rfl, ?_, ?_, ?_⟩
  · show dictGet (dictInsert m.tasks t.uuid t) t.uuid = some t
    rw [dictGet_insert_self]
  · show ({ tasks := dictInsert (dictInsert m.tasks t.uuid t) t.uuid t
        : TaskManager σ }, t.uuid) = _
    rw [dictInsert_idem]
    rfl
  · intro hnd
    show countKey (dictInsert m.tasks t.uuid t) t.uuid = 1
    exact countKey_insert_nodup t.uuid t m.tasks hnd

/-- Claim C10 witness: adding the scenario Task to the empty manager. -/
theorem C10_add_task_roundtrip_witness :
    NodupKeys sampleManager.tasks ∧
    ((TaskManager.add_task sampleManager sampleTask).2 = sampleTask.uuid ∧
     TaskManager.get_task (TaskManager.add_task sampleManager sampleTask).1
        sampleTask.uuid = some sampleTask ∧
     TaskManager.add_task (TaskManager.add_task sampleManager sampleTask).1
        sampleTask = TaskManager.add_task sampleManager sampleTask ∧
     countKey (TaskManager.add_task sampleManager sampleTask).1.tasks
        sampleTask.uuid = 1) :=
  ⟨List.nodup_nil,
   ⟨(C10_add_task_roundtrip sampleManager sampleTask).1,
    (C10_add_task_roundtrip sampleManager sampleTask).2.1,
    (C10_add_task_roundtrip sampleManager sampleTask).2.2.1,
    (C10_add_task_roundtrip sampleManager sampleTask).2.2.2 List.nodup_nil⟩⟩

end ArgTask
